import Mathlib

/-!
Verification of the ricochet reactive rendering engine against its
natural-language specification.

The definitions below are shallow embeddings of the TypeScript source:

* `dispatch` embeds the shape dispatch of the recursive renderer `r`
  (src/index.ts, function `render`/`r`);
* `BSubject` embeds `BuiltinSubject` (src/reactive.ts);
* `setPropertySA` embeds `ObservableArrayImpl.setProperty` for a single
  array viewed through its notification interface (src/array.ts);
* `destroyEl` embeds the per-node `destroy` function (src/internal/index.ts);
* `destroyRangeM` embeds `destroyRange` (src/internal/index.ts);
* `rPure` embeds the recursive renderer `r` for non-observable values,
  and `renderChild` embeds the re-render handler installed for
  observable nodes (src/index.ts);
* `World.setProp`/`World.pushOp`/`syncOp` embed the mirrored observable
  arrays with their shared reentrancy lock (src/array.ts,
  `ObservableArrayImpl.mirror`, `sync`, `MutualRecursionLock`);
* `ElemSys` embeds the rendering contract of an element-valued
  observable array together with the `swap` method dispatch
  (src/array.ts, `render` and `swap`).
-/

namespace Ricochet

/-! ### Shape dispatch of the recursive renderer

The renderer `r` tests, in textual order of the source:
`node == null || node === false`; then the observable unification
(`node[ObservableSymbol]` or `typeof node.subscribe === 'function'`);
then `typeof node.render === 'function'`; then `Array.isArray(node)`;
otherwise the literal/text fallback inserts a node.  We embed a value by
the outcome of each of those runtime shape probes. -/

/-- Outcome of the runtime shape probes that the renderer performs on an
arbitrary value, in the order the source performs them. -/
structure RVal where
  /-- The value is `null`/`undefined` (`node == null`). -/
  isNull : Bool
  /-- The value is the literal `false` (`node === false`). -/
  isFalse : Bool
  /-- The value has an `[ObservableSymbol]` method. -/
  hasObservableSymbol : Bool
  /-- The value has a `subscribe` function property. -/
  hasSubscribeFn : Bool
  /-- The value has a `render` function property. -/
  hasRenderFn : Bool
  /-- `Array.isArray(value)` holds. -/
  isArray : Bool
  deriving DecidableEq, Repr

/-- The five shapes a value can be dispatched to. -/
inductive Shape
  | empty
  | observable
  | custom
  | sequence
  | literal
  deriving DecidableEq, Repr

/-- Shape dispatch of the recursive renderer `r`, following the source
order: empty check, observable unification, custom-renderable check,
array check, literal fallback. -/
def dispatch (v : RVal) : Shape :=
  if v.isNull || v.isFalse then .empty
  else if v.hasObservableSymbol || v.hasSubscribeFn then .observable
  else if v.hasRenderFn then .custom
  else if v.isArray then .sequence
  else .literal

/-- A value is observable-shaped when either runtime probe of the
observable unification succeeds. -/
def observableShaped (v : RVal) : Bool :=
  v.hasObservableSymbol || v.hasSubscribeFn

/-- A value is empty-shaped when it is `null` or `false`. -/
def emptyShaped (v : RVal) : Bool :=
  v.isNull || v.isFalse

/-! ### BuiltinSubject (src/reactive.ts)

`BuiltinSubject` stores a value `v` and a `Set` of observers; a `Set`
iterates in insertion order, so the observers are embedded as a
duplicate-free list of observer identifiers in registration order.
The `value` setter returns early when the assigned value is
reference-equal to the stored one; `next` delegates to the setter. -/

/-- State of a `BuiltinSubject`: the stored value and the registered
observers in registration order. -/
structure BSubject (T : Type) where
  v : T
  observers : List Nat
  deriving Repr

/-- The `value` setter of `BuiltinSubject`: if the new value equals the
stored one, return without touching anything; otherwise store it and
notify every observer, in iteration (= registration) order, with the
new value.  The returned list is the sequence of `(observer, value)`
notification calls performed. -/
def BSubject.setValue [DecidableEq T] (s : BSubject T) (x : T) :
    BSubject T × List (Nat × T) :=
  if s.v = x then (s, [])
  else ({ s with v := x }, s.observers.map fun o => (o, x))

/-- `BuiltinSubject.next` just assigns `this.value`. -/
def BSubject.nextVal [DecidableEq T] (s : BSubject T) (x : T) :
    BSubject T × List (Nat × T) :=
  s.setValue x

/-! ### setProperty of a single observable array (src/array.ts)

`ObservableArrayImpl.setProperty`, restricted to an integer index (the
`length` and symbol branches are not under test here): reject
`p < 0 || p > this.data.length`, otherwise notify every change
observer with `[p, value]`, then every array observer with
`set(p, value)`, then write `this.data[p] = value` (an append when
`p === length`).  Observers are embedded by identifiers; the result
lists the notifications issued, in order. -/

/-- A single observable array: backing data, change observers and array
observers, each in registration order. -/
structure SingleArr (α : Type) where
  data : List α
  changeObs : List Nat
  obs : List Nat
  deriving Repr

/-- Write `data[i] = v` where `0 ≤ i ≤ data.length`: a `List.set` in
range and an append at `i = data.length`. -/
def listWrite (l : List α) (i : Nat) (v : α) : List α :=
  if i < l.length then l.set i v else l ++ [v]

/-- `setProperty` on an integer index: bounds check, notifications,
then the write.  Returns the new state, the notification log
(`(observerId, index, value)` in emission order) and the success flag
returned to the proxy `set` trap. -/
def setPropertySA (s : SingleArr α) (p : Int) (v : α) :
    SingleArr α × List (Nat × Nat × α) × Bool :=
  if p < 0 ∨ p > (s.data.length : Int) then (s, [], false)
  else
    ({ s with data := listWrite s.data p.toNat v },
     s.changeObs.map (fun o => (o, p.toNat, v))
       ++ s.obs.map (fun o => (o, p.toNat, v)),
     true)

/-! ### Per-node destroy (src/internal/index.ts)

`destroy(node, remove = true)`: detach the node when `remove` holds
(`node.remove()` is a no-op on an already-detached node); return early
when `node.subscriptions == null`; otherwise splice out and unsubscribe
every subscription, dispatch the `destroy` event and invoke
`node.ondestroy` when present. -/

/-- The per-node state `destroy` manipulates: attachment, the
`subscriptions` property (absent, i.e. `null`/`undefined`, or a list of
subscription identifiers) and whether an `ondestroy` hook is set. -/
structure ElNode where
  attached : Bool
  subscriptions : Option (List Nat)
  ondestroy : Bool
  deriving DecidableEq, Repr

/-- Result of one `destroy` call: the node afterwards, the
subscriptions it unsubscribed, whether the `destroy` event was
dispatched, and whether the `ondestroy` hook was invoked. -/
structure DestroyResult where
  node : ElNode
  unsubscribed : List Nat
  eventFired : Bool
  hookInvoked : Bool
  deriving DecidableEq, Repr

/-- One call of `destroy(node, remove)`. -/
def destroyEl (n : ElNode) (remove : Bool := true) : DestroyResult :=
  let n1 := if remove then { n with attached := false } else n
  match n1.subscriptions with
  | none => ⟨n1, [], false, false⟩
  | some subs =>
    ⟨{ n1 with subscriptions := some [] }, subs, true, n1.ondestroy⟩

/-! ### The document model

A rendered document is the ordered list of content nodes of one parent.
A node is identified by a `Nat` id; a text node carries its string,
an element node is pre-constructed content.  `destroyRange` and the
renderer below act on this list. -/

/-- The kind of a content node: a text node with its data, or an
already-constructed element. -/
inductive Label
  | text (s : String)
  | elem
  deriving DecidableEq, Repr

/-- A content node: identity plus kind. -/
structure DNode where
  id : Nat
  label : Label
  deriving DecidableEq, Repr

/-- The ids of a node list. -/
def ids (dom : List DNode) : List Nat :=
  dom.map (·.id)

/-- Removing a node from its parent (`node.remove()` inside `destroy`):
drop every node carrying that id. -/
def removeId (i : Nat) (dom : List DNode) : List DNode :=
  dom.filter (fun n => n.id ≠ i)

/-- `previousSibling` of the node with id `feId`: the node immediately
before the first node carrying `feId`. -/
def prevSib (feId : Nat) : List DNode → Option DNode
  | a :: b :: rest =>
    if b.id = feId then some a else prevSib feId (b :: rest)
  | _ => none

/-- `nextSibling` of the node with id `i`: the node immediately after
the first node carrying `i`. -/
def nextSib (i : Nat) : List DNode → Option DNode
  | a :: b :: rest =>
    if a.id = i then some b else nextSib i (b :: rest)
  | _ => none

/-! `destroyRange(prevIncluded, nextExcluded)` (src/internal/index.ts):

* absent `prevIncluded`, or `nextExcluded === prevIncluded`: return;
* absent `nextExcluded` with a parent element: destroy
  `parent.lastChild` until it is `prevIncluded`, then destroy it;
* absent `nextExcluded` without a parent element (detached node):
  walk `nextSibling` links forward, destroying each node, and return;
* otherwise destroy `nextExcluded.previousSibling` until it is
  `prevIncluded`, then destroy `prevIncluded`.

The `while` loops are embedded with a fuel argument; `destroyRangeM`
instantiates the fuel with `dom.length + 1`, which the loop never
exhausts on the inputs satisfiable in the document model (on other
inputs the source either loops forever or throws on a `null` node).
Each `destroy(node)` removes the node and tears it down; the second
component accumulates the torn-down ids in destruction order. -/

/-- The `while (parent.lastChild != prevIncluded) destroy(parent.lastChild)`
loop of `destroyRange`. -/
def destroyToEnd (fiId : Nat) : Nat → List DNode → List DNode × List Nat
  | 0, dom => (dom, [])
  | fuel + 1, dom =>
    match dom.getLast? with
    | none => (dom, [])
    | some n =>
      if n.id = fiId then (dom, [])
      else
        let r := destroyToEnd fiId fuel dom.dropLast
        (r.1, n.id :: r.2)

/-- The `while (nextExcluded.previousSibling != prevIncluded) destroy(...)`
loop of `destroyRange`. -/
def destroyBack (fiId feId : Nat) : Nat → List DNode → List DNode × List Nat
  | 0, dom => (dom, [])
  | fuel + 1, dom =>
    match prevSib feId dom with
    | none => (dom, [])
    | some n =>
      if n.id = fiId then (dom, [])
      else
        let r := destroyBack fiId feId fuel (removeId n.id dom)
        (r.1, n.id :: r.2)

/-- The forward walk of `destroyRange` for a `prevIncluded` whose
parent is not an element: `while (prevIncluded != null) { const next =
prevIncluded.nextSibling; destroy(prevIncluded); prevIncluded = next }`. -/
def destroyForward : Option Nat → Nat → List DNode → List DNode × List Nat
  | _, 0, dom => (dom, [])
  | none, _ + 1, dom => (dom, [])
  | some c, fuel + 1, dom =>
    let nxt := (nextSib c dom).map (·.id)
    let r := destroyForward nxt fuel (removeId c dom)
    (r.1, c :: r.2)

/-- `destroyRange(prevIncluded, nextExcluded)` on the children `dom` of
one parent; `hasParent` embeds `prevIncluded.parentElement != null`.
Returns the remaining children and the torn-down ids in order. -/
def destroyRangeM (fi fe : Option Nat) (hasParent : Bool)
    (dom : List DNode) : List DNode × List Nat :=
  match fi with
  | none => (dom, [])
  | some fiId =>
    if fe = some fiId then (dom, [])
    else
      match fe with
      | none =>
        if hasParent then
          let r := destroyToEnd fiId (dom.length + 1) dom
          (removeId fiId r.1, r.2 ++ [fiId])
        else
          destroyForward (some fiId) (dom.length + 1) dom
      | some feId =>
        let r := destroyBack fiId feId (dom.length + 1) dom
        (removeId fiId r.1, r.2 ++ [fiId])

/-! ### The recursive renderer `r` on non-observable values (src/index.ts)

A nested-node value without observable parts: `null`/`false`, a
primitive (rendered as a text node), an already-constructed element,
or an array of nested-node values.  `rPure` embeds the renderer `r`
restricted to these shapes; the two position references `prev`/`next`
are passed as their current contents (`prev[0]`/`next[0]`), and the
final content of `prev[0]` is returned.  Text nodes are allocated with
a counter carried in the state. -/

/-- A non-observable nested-node value. -/
inductive VNode
  | empty
  | text (s : String)
  | elem (n : DNode)
  | seq (xs : List VNode)

/-- Insert `m` immediately before the first node carrying id `i`
(append at the end when no node carries it — the source would throw a
`NotFoundError` there, which the preconditions proved below exclude). -/
def insertAt (m : DNode) (i : Nat) : List DNode → List DNode
  | [] => [m]
  | a :: rest =>
    if a.id = i then m :: a :: rest else a :: insertAt m i rest

/-- `parent.insertBefore(m, ref)`: per the DOM pre-insertion algorithm,
if the reference child is `m` itself the reference becomes `m`'s next
sibling; then `m` is removed from its current position and inserted
before the reference (at the end when the reference is absent). -/
def insertBeforeId (m : DNode) (ref : Option Nat) (dom : List DNode) :
    List DNode :=
  let ref1 := if ref = some m.id then (nextSib m.id dom).map (·.id) else ref
  let dom1 := removeId m.id dom
  match ref1 with
  | none => dom1 ++ [m]
  | some i => insertAt m i dom1

/-- Render state: the text-node allocation counter and the children of
the parent. -/
abbrev RSt := Nat × List DNode

mutual

/-- The renderer `r(node, prev, next)` of src/index.ts on
non-observable values.  `prevIn` is the content of `prev[0]` on entry,
`next` the content of `next[0]`; the result pairs the new state with
the content of `prev[0]` on exit.

* `null`/`false`: return;
* array: if empty return, else render members in reverse index order
  (`rRev` for indices `length-1 .. 1`), finishing with index 0 rendered
  into the caller-supplied `prev`;
* literal fallback: insert the node (a fresh text node for a primitive,
  the element itself otherwise) before `next`, and point `prev` at it. -/
def rPure : VNode → Option Nat → Option Nat → RSt → RSt × Option Nat
  | .empty, prevIn, _, st => (st, prevIn)
  | .text s, _, next, st =>
    ((st.1 + 1, insertBeforeId ⟨st.1, .text s⟩ next st.2), some st.1)
  | .elem n, _, next, st =>
    ((st.1, insertBeforeId n next st.2), some n.id)
  | .seq [], prevIn, _, st => (st, prevIn)
  | .seq (x :: xs), prevIn, next, st =>
    let r1 := rRev xs next st
    rPure x prevIn r1.2 r1.1

/-- The `for (let i = node.length - 1; i > 0; i--)` loop of the array
case: render the members with index ≥ 1 in reverse order, each into a
fresh `childPrev` paired with the current `next`; whenever a member
materialized something, `next` becomes its `childPrev`.  Returns the
final `next`. -/
def rRev : List VNode → Option Nat → RSt → RSt × Option Nat
  | [], next, st => (st, next)
  | y :: ys, next, st =>
    let r1 := rRev ys next st
    let r2 := rPure y none r1.2 r1.1
    (r2.1, if r2.2.isSome then r2.2 else r1.2)

end

mutual

/-- The labels of the nodes a value materializes when rendered
standalone, in document order. -/
def producedL : VNode → List Label
  | .empty => []
  | .text s => [.text s]
  | .elem n => [n.label]
  | .seq xs => producedLs xs

/-- `producedL` over the members of a sequence, in order. -/
def producedLs : List VNode → List Label
  | [] => []
  | x :: xs => producedL x ++ producedLs xs

end

mutual

/-- The ids of the pre-constructed elements occurring in a value. -/
def elemIds : VNode → List Nat
  | .empty => []
  | .text _ => []
  | .elem n => [n.id]
  | .seq xs => elemIdsL xs

/-- `elemIds` over the members of a sequence. -/
def elemIdsL : List VNode → List Nat
  | [] => []
  | x :: xs => elemIds x ++ elemIdsL xs

end

/-- `next` brackets the suffix `A` of the children: it holds the id of
the first node of `A`, or nothing when `A` is empty (insertion at the
end). -/
def validNext (next : Option Nat) (A : List DNode) : Prop :=
  match A with
  | [] => next = none
  | a :: _ => next = some a.id

/-! ### The re-render handler of an Observable Node (src/index.ts)

For an observable value, `r` installs `renderChild`, invoked on every
emission: if `hadValue`, destroy the range `[prev[0], next[0])` and
clear `prev[0]`; render the emitted value non-reactively in place;
set `hadValue` to whether `prev[0]` was written; if not, collapse
`prev[0]` to `next[0]`.  `hadValue` starts out `true`. -/

/-- The state captured by the `renderChild` closure: the text-node
counter, the parent's children, the `hadValue` flag and the content of
`prev[0]`.  The content of `next[0]` is fixed by the enclosing render. -/
structure ObsSt where
  cnt : Nat
  dom : List DNode
  hadValue : Bool
  prevV : Option Nat
  deriving Repr

/-- One emission handled by `renderChild`. -/
def renderChild (nextV : Option Nat) (s : ObsSt) (v : VNode) : ObsSt :=
  let d := if s.hadValue then (destroyRangeM s.prevV nextV true s.dom).1 else s.dom
  let prev1 := if s.hadValue then none else s.prevV
  let r1 := rPure v prev1 nextV (s.cnt, d)
  { cnt := r1.1.1, dom := r1.1.2, hadValue := r1.2.isSome,
    prevV := if r1.2.isSome then r1.2 else nextV }

/-! ### Mirrored observable arrays (src/array.ts)

`sync` derives a new `ObservableArrayImpl` whose data is
`this.data.map(f)` and wires `ObservableArrayImpl.mirror` observers in
each direction, both guarded by one shared `MutualRecursionLock`
(`lock()` returns false when already locked; the mirror handler then
drops the propagation).  A JS value is embedded as an integer or the
decimal-string rendering of an integer, which suffices for the
`String`/`Number` transforms of the spec scenario. -/

/-- A JS value: an integer, or the decimal string of an integer. -/
inductive JSVal
  | vint (n : Int)
  | vstr (n : Int)
  deriving DecidableEq, Repr

/-- A mirror observer installed by `ObservableArrayImpl.mirror`: the
index of the target array, the transform, the slot counting how often
the transform has been invoked, and the shared lock's index. -/
structure MirrorOb where
  tgt : Nat
  f : JSVal → Nat → JSVal
  cId : Nat
  lockId : Nat

/-- One `ObservableArrayImpl`: its backing data and its observers (all
mirror observers here) in registration order. -/
structure ArrSt where
  data : List JSVal
  obs : List MirrorOb

/-- A collection of mirrored arrays: the arrays, the
`MutualRecursionLock`s, and the transform-invocation counters. -/
structure World where
  arrs : List ArrSt
  locks : List Bool
  calls : List Nat

/-- The data of array `a`. -/
def World.arrData (w : World) (a : Nat) : List JSVal :=
  (w.arrs.getD a ⟨[], []⟩).data

/-- The observers of array `a`, in registration order. -/
def World.arrObs (w : World) (a : Nat) : List MirrorOb :=
  (w.arrs.getD a ⟨[], []⟩).obs

/-- Replace the data of array `a`. -/
def World.setData (w : World) (a : Nat) (d : List JSVal) : World :=
  { w with arrs := w.arrs.set a ⟨d, w.arrObs a⟩ }

/-- Register an observer on array `a` (`source.observe(...)`). -/
def World.addObs (w : World) (a : Nat) (ob : MirrorOb) : World :=
  { w with arrs := w.arrs.set a ⟨w.arrData a, w.arrObs a ++ [ob]⟩ }

/-- Read lock `l` (`this.locked`). -/
def World.lockAt (w : World) (l : Nat) : Bool :=
  w.locks.getD l false

/-- Write lock `l`. -/
def World.setLock (w : World) (l : Nat) (b : Bool) : World :=
  { w with locks := w.locks.set l b }

/-- Count `k` further invocations of the transform in slot `c`. -/
def World.bumpCalls (w : World) (c k : Nat) : World :=
  { w with calls := w.calls.set c (w.calls.getD c 0 + k) }

/-- `Array.prototype.map` with the index argument the callback
receives. -/
def mapWithIndex (f : α → Nat → β) : List α → Nat → List β
  | [], _ => []
  | x :: xs, i => f x i :: mapWithIndex f xs (i + 1)

/-- `setProperty(p, value)` of an `ObservableArrayImpl` whose observers
are mirror observers: bounds check, then
`for (const observer of this.observers) observer.set(p, value)` in
order — each mirror `set` handler being `if (!lock.lock()) return;
target.setProperty(i, transform(v, i)); lock.unlock()` — then write
the backing data.  The fuel bounds the mirror-propagation depth (the
lock keeps it at two in reality). -/
def setProp : Nat → World → Nat → Int → JSVal → World
  | 0, w, _, _, _ => w
  | fuel + 1, w, a, i, v =>
    if i < 0 ∨ i > ((w.arrData a).length : Int) then w
    else
      let w1 := (w.arrObs a).foldl
        (fun w ob =>
          if w.lockAt ob.lockId then w
          else
            (setProp fuel ((w.setLock ob.lockId true).bumpCalls ob.cId 1)
                ob.tgt i (ob.f v i.toNat)).setLock ob.lockId false) w
      w1.setData a (listWrite (w1.arrData a) i.toNat v)

/-- `push(...items)` reached through the proxy's generic method path:
every observer declares a `push` handler here and no fallback or change
observer exists, so the handlers run in order — each mirror `push`
handler locking, pushing `items.map(transform)` onto the target (the
transform receives the index *within `items`*) and unlocking — and
then `Array.prototype.push` extends the backing data. -/
def pushOp : Nat → World → Nat → List JSVal → World
  | 0, w, _, _ => w
  | fuel + 1, w, a, items =>
    let w1 := (w.arrObs a).foldl
      (fun w ob =>
        if w.lockAt ob.lockId then w
        else
          (pushOp fuel
              ((w.setLock ob.lockId true).bumpCalls ob.cId items.length)
              ob.tgt (mapWithIndex (fun x i => ob.f x i) items 0)).setLock
            ob.lockId false) w
    w1.setData a (w1.arrData a ++ items)

/-- `source.sync(f, g?)`: create a new array with data
`source.data.map(f)`, a fresh shared lock and fresh call counters; wire
`mirror(source, new, f, lock)`, and `mirror(new, source, g, lock)` when
an inverse is given.  Returns the world extended with the new array. -/
def syncOp (w : World) (src : Nat) (f : JSVal → Nat → JSVal)
    (g : Option (JSVal → Nat → JSVal)) : World :=
  let newIdx := w.arrs.length
  let lockId := w.locks.length
  let cF := w.calls.length
  let cG := w.calls.length + 1
  let srcData := w.arrData src
  let w1 : World :=
    { arrs := w.arrs ++ [⟨mapWithIndex (fun x i => f x i) srcData 0, []⟩],
      locks := w.locks ++ [false],
      calls := w.calls ++ [srcData.length, 0] }
  let w2 := w1.addObs src ⟨newIdx, f, cF, lockId⟩
  match g with
  | none => w2
  | some gf => w2.addObs newIdx ⟨src, gf, cG, lockId⟩

/-! ### The rendering contract of an element-valued list, and `swap`
(src/array.ts)

`render(_, prev, next, r)` keeps one `NodeRef` per list index in
`renderedNodes` and handles `set(i, v)` notifications by destroying the
old range at `i` and re-rendering `v` in place.  `NodeRef` cells are
embedded in a store indexed by ref ids so that aliasing between
`renderedNodes[0]` and the caller's `prev` is representable.

`swap(a, b)` is an own method of `ObservableArrayImpl.prototype`, so
the proxy's `get` trap returns it directly (`getProperty` returns `prop`
when `ObservableArrayImpl.prototype.hasOwnProperty(p)`); invoking it
runs `const tmp = this.data[a]; this.proxy[a] = this.data[b];
this.proxy[b] = tmp`, i.e. two index assignments through the proxy,
each of which reaches `setProperty` and hence the rendering contract's
`set` handler — not its `swap` handler. -/

/-- State of an element-valued observable array under its rendering
contract: the backing data, the parent's children, the `NodeRef` store,
`renderedNodes` (ref ids per index), the bracketing `firstPrev` and
`lastNext` ref ids, the ids destroyed by teardown, and the number of
times the debug duplicate-item check fired (`console.error`). -/
structure ElemSys where
  data : List DNode
  dom : List DNode
  refs : List (Option Nat)
  renderedNodes : List Nat
  firstPrev : Nat
  lastNext : Nat
  destroyedLog : List Nat
  dupErrors : Nat
  deriving Repr

instance : Inhabited DNode := ⟨⟨0, .elem⟩⟩

/-- Dereference a `NodeRef` cell. -/
def ElemSys.refGet (s : ElemSys) (r : Nat) : Option Nat :=
  s.refs.getD r none

/-- Assign a `NodeRef` cell. -/
def ElemSys.refSet (s : ElemSys) (r : Nat) (v : Option Nat) : ElemSys :=
  { s with refs := s.refs.set r v }

/-- The literal branch of the renderer for an element value:
`prev[0] = parent.insertBefore(v, next[0])`. -/
def rElemLit (s : ElemSys) (v : DNode) (prevId nextId : Nat) : ElemSys :=
  let s1 := { s with dom := insertBeforeId v (s.refGet nextId) s.dom }
  s1.refSet prevId (some v.id)

/-- The `set(i, v)` handler of the rendering contract: append when the
index has no rendered node yet; otherwise destroy the old range,
re-render in place, and run the debug duplicate-item check, counting
each `console.error` it emits. -/
def renderSet (s : ElemSys) (i : Nat) (v : DNode) : ElemSys :=
  match s.renderedNodes.get? i with
  | none =>
    let prevId := if i = 0 then s.firstPrev else s.refs.length
    let s1 := if i = 0 then s else { s with refs := s.refs ++ [none] }
    let s2 := { s1 with renderedNodes := listWrite s1.renderedNodes i prevId }
    rElemLit s2 v prevId s2.lastNext
  | some prevId =>
    let nextId := s.renderedNodes.getD (i + 1) s.lastNext
    let d := destroyRangeM (s.refGet prevId) (s.refGet nextId) true s.dom
    let s1 := { s with dom := d.1, destroyedLog := s.destroyedLog ++ d.2 }
    let s2 := rElemLit s1 v prevId nextId
    let pv := s2.refGet prevId
    let dups := (List.range s2.renderedNodes.length).countP
      (fun j => j ≠ i ∧ s2.refGet (s2.renderedNodes.getD j 0) = pv)
    { s2 with dupErrors := s2.dupErrors + dups }

/-- `setProperty(i, v)` of the element-valued array whose only observer
is the rendering contract: bounds check, notify the `set` handler, then
write the backing data. -/
def setPropertyES (s : ElemSys) (i : Int) (v : DNode) : ElemSys × Bool :=
  if i < 0 ∨ i > (s.data.length : Int) then (s, false)
  else
    let s1 := renderSet s i.toNat v
    ({ s1 with data := listWrite s1.data i.toNat v }, true)

/-- `swap(a, b)` as dispatched at runtime: the prototype method,
performing two index assignments through the proxy. -/
def swapOp (s : ElemSys) (a b : Nat) : ElemSys :=
  let tmp := s.data.getD a default
  let s1 := (setPropertyES s a (s.data.getD b default)).1
  (setPropertyES s1 b tmp).1

/-- The state of `observableArray(e1, e2)` rendered into an empty
parent bracketed by `firstPrev`/`lastNext`: the initial
`observe(..., true)` replay runs `splice(0, 0, e1, e2)`, which renders
`e2` before `lastNext` into a fresh ref and `e1` before `e2` into
`firstPrev`, leaving `renderedNodes = [firstPrev, ref1]`. -/
def swapScenario0 (e1 e2 : DNode) : ElemSys :=
  { data := [e1, e2],
    dom := [e1, e2],
    refs := [some e1.id, some e2.id, none],
    renderedNodes := [0, 1],
    firstPrev := 0,
    lastNext := 2,
    destroyedLog := [],
    dupErrors := 0 }

/-! ### Concrete transforms and scenarios -/

/-- The transform `x => x * 2` (JS multiplication coerces a numeric
string). -/
def jsDouble : JSVal → Nat → JSVal
  | .vint n, _ => .vint (2 * n)
  | .vstr n, _ => .vint (2 * n)

/-- The `String` builtin as a transform. -/
def jsString : JSVal → Nat → JSVal
  | .vint n, _ => .vstr n
  | .vstr n, _ => .vstr n

/-- The `Number` builtin as a transform. -/
def jsNumber : JSVal → Nat → JSVal
  | .vint n, _ => .vint n
  | .vstr n, _ => .vint n

/-- The world after `A = observableArray(1, 3); B = A.sync(x => x * 2)`
(array 0 is `A`, array 1 is `B`). -/
def syncW1 : World :=
  syncOp ⟨[⟨[.vint 1, .vint 3], []⟩], [], []⟩ 0 jsDouble none

/-- ... after `A.push(5)`. -/
def syncW2 : World := pushOp 10 syncW1 0 [.vint 5]

/-- ... after `C = A.sync(String, Number)` (array 2 is `C`). -/
def syncW3 : World := syncOp syncW2 0 jsString (some jsNumber)

/-- ... after `C[1] = '9'`. -/
def syncW4 : World := setProp 10 syncW3 2 1 (.vstr 9)

mutual

/-- The literal leaves of a nested value, in document order: the
members of the equivalent single flat Sequence. -/
def leaves : VNode → List VNode
  | .seq xs => leavesL xs
  | .empty => []
  | v => [v]

/-- `leaves` over the members of a sequence. -/
def leavesL : List VNode → List VNode
  | [] => []
  | x :: xs => leaves x ++ leavesL xs

end

/-! ### Characterization of `destroyRange` -/

theorem ids_append (X Y : List DNode) : ids (X ++ Y) = ids X ++ ids Y := by
  simp [ids]

theorem ids_cons (n : DNode) (X : List DNode) : ids (n :: X) = n.id :: ids X := by
  simp [ids]

theorem removeId_of_notMem (i : Nat) (X : List DNode) (h : i ∉ ids X) :
    removeId i X = X := by
  rw [removeId, List.filter_eq_self]
  intro a ha
  simp only [ne_eq, decide_eq_true_eq]
  intro hc
  exact h (hc ▸ List.mem_map_of_mem (·.id) ha)

theorem removeId_append (i : Nat) (X Y : List DNode) :
    removeId i (X ++ Y) = removeId i X ++ removeId i Y := by
  simp [removeId]

theorem removeId_middle (n : DNode) (X Y : List DNode)
    (hX : n.id ∉ ids X) (hY : n.id ∉ ids Y) :
    removeId n.id (X ++ n :: Y) = X ++ Y := by
  rw [removeId_append, removeId_of_notMem _ _ hX]
  have : removeId n.id (n :: Y) = removeId n.id Y := by
    simp [removeId, List.filter_cons]
  rw [this, removeId_of_notMem _ _ hY]

theorem prevSib_cons (feId : Nat) (a : DNode) (l : List DNode)
    (h : ∀ b ∈ l.head?, b.id ≠ feId) :
    prevSib feId (a :: l) = prevSib feId l := by
  cases l with
  | nil => rfl
  | cons b rest =>
    have hb : b.id ≠ feId := h b (by simp)
    simp [prevSib, hb]

theorem prevSib_spec (fe n : DNode) (Z Y : List DNode)
    (hZ : fe.id ∉ ids Z) (hn : n.id ≠ fe.id) :
    prevSib fe.id (Z ++ n :: fe :: Y) = some n := by
  induction Z with
  | nil => simp [prevSib]
  | cons z Z ih =>
    have hZ' : fe.id ∉ ids Z := by
      simp only [ids_cons, List.mem_cons, not_or] at hZ
      exact hZ.2
    rw [List.cons_append, prevSib_cons]
    · exact ih hZ'
    · intro b hb
      cases Z with
      | nil =>
        simp at hb
        exact hb ▸ hn
      | cons w Z' =>
        simp at hb
        subst hb
        simp only [ids_cons, List.mem_cons, not_or] at hZ'
        exact fun hc => hZ'.1 hc.symm

theorem nextSib_cons (iId : Nat) (a : DNode) (l : List DNode)
    (h : a.id ≠ iId) :
    nextSib iId (a :: l) = nextSib iId l := by
  cases l with
  | nil => rfl
  | cons b rest => simp [nextSib, h]

theorem nextSib_last (fi : DNode) (Z : List DNode) (hZ : fi.id ∉ ids Z) :
    nextSib fi.id (Z ++ [fi]) = none := by
  induction Z with
  | nil => rfl
  | cons z Z ih =>
    simp only [ids_cons, List.mem_cons, not_or] at hZ
    rw [List.cons_append, nextSib_cons _ _ _ (fun hc => hZ.1 hc.symm)]
    exact ih hZ.2

theorem nextSib_mid (fi n : DNode) (Z Y : List DNode) (hZ : fi.id ∉ ids Z) :
    nextSib fi.id (Z ++ fi :: n :: Y) = some n := by
  induction Z with
  | nil => simp [nextSib]
  | cons z Z ih =>
    simp only [ids_cons, List.mem_cons, not_or] at hZ
    rw [List.cons_append, nextSib_cons _ _ _ (fun hc => hZ.1 hc.symm)]
    exact ih hZ.2

theorem destroyToEnd_spec (fi : DNode) (B : List DNode) :
    ∀ (A : List DNode) (fuel : Nat), A.length < fuel → fi.id ∉ ids A →
      destroyToEnd fi.id fuel (B ++ fi :: A) = (B ++ [fi], (ids A).reverse) := by
  intro A
  induction A using List.reverseRecOn with
  | nil =>
    intro fuel hf _
    match fuel, hf with
    | fuel + 1, _ =>
      simp [destroyToEnd, List.getLast?_concat, ids]
  | append_singleton A' n ih =>
    intro fuel hf hmem
    match fuel, hf with
    | fuel + 1, hf =>
      have hA' : fi.id ∉ ids A' := by
        rw [ids_append] at hmem
        exact fun hc => hmem (List.mem_append_left _ hc)
      have hn : n.id ≠ fi.id := by
        rw [ids_append] at hmem
        intro hc
        exact hmem (List.mem_append_right _ (by simp [ids, hc]))
      have hassoc : B ++ fi :: (A' ++ [n]) = (B ++ fi :: A') ++ [n] := by
        simp
      rw [hassoc]
      have hlast : ((B ++ fi :: A') ++ [n]).getLast? = some n :=
        List.getLast?_concat _
      have hdrop : ((B ++ fi :: A') ++ [n]).dropLast = B ++ fi :: A' :=
        List.dropLast_concat
      have hflt : A'.length < fuel := by
        simp at hf
        omega
      simp only [destroyToEnd, hlast, hdrop, hn, if_false]
      rw [ih fuel hflt hA']
      simp [ids_append, ids_cons, ids]

theorem destroyBack_spec (fi fe : DNode) (B A : List DNode)
    (hfeB : fe.id ∉ ids B) (hfefi : fe.id ≠ fi.id) :
    ∀ (M : List DNode) (fuel : Nat), M.length < fuel →
      fe.id ∉ ids M → fi.id ∉ ids M → (ids M).Nodup →
      (∀ m ∈ M, m.id ∉ ids B) → (∀ m ∈ M, m.id ∉ ids A) →
      destroyBack fi.id fe.id fuel (B ++ fi :: M ++ fe :: A)
        = (B ++ fi :: fe :: A, (ids M).reverse) := by
  intro M
  induction M using List.reverseRecOn with
  | nil =>
    intro fuel hf _ _ _ _ _
    match fuel, hf with
    | fuel + 1, _ =>
      have hps : prevSib fe.id (B ++ fi :: fe :: A) = some fi :=
        prevSib_spec fe fi B A hfeB (fun hc => hfefi hc.symm)
      simp [destroyBack, hps, ids]
  | append_singleton M' n ih =>
    intro fuel hf hfeM hfiM hnd hMB hMA
    match fuel, hf with
    | fuel + 1, hf =>
      rw [ids_append] at hfeM hfiM
      have hfeM' : fe.id ∉ ids M' := fun hc => hfeM (List.mem_append_left _ hc)
      have hfiM' : fi.id ∉ ids M' := fun hc => hfiM (List.mem_append_left _ hc)
      have hfen : fe.id ≠ n.id := fun hc =>
        hfeM (List.mem_append_right _ (by simp [ids, hc]))
      have hfin : fi.id ≠ n.id := fun hc =>
        hfiM (List.mem_append_right _ (by simp [ids, hc]))
      rw [ids_append] at hnd
      have hnd' : (ids M').Nodup := hnd.of_append_left
      have hnM' : n.id ∉ ids M' := by
        have := (List.nodup_append.mp hnd).2.2
        intro hc
        exact this hc (by simp [ids])
      have hnB : n.id ∉ ids B := hMB n (by simp)
      have hnA : n.id ∉ ids A := hMA n (by simp)
      have hassoc : B ++ fi :: (M' ++ [n]) ++ fe :: A
          = (B ++ fi :: M') ++ n :: fe :: A := by simp
      have hZ : fe.id ∉ ids (B ++ fi :: M') := by
        rw [ids_append, ids_cons]
        simp only [List.mem_append, List.mem_cons, not_or]
        exact ⟨hfeB, fun hc => hfefi hc, hfeM'⟩
      have hps : prevSib fe.id ((B ++ fi :: M') ++ n :: fe :: A) = some n :=
        prevSib_spec fe n (B ++ fi :: M') A hZ (fun hc => hfen hc.symm)
      have hX : n.id ∉ ids (B ++ fi :: M') := by
        rw [ids_append, ids_cons]
        simp only [List.mem_append, List.mem_cons, not_or]
        exact ⟨hnB, fun hc => hfin hc.symm, hnM'⟩
      have hY : n.id ∉ ids (fe :: A) := by
        rw [ids_cons]
        simp only [List.mem_cons, not_or]
        exact ⟨fun hc => hfen hc.symm, hnA⟩
      have hrm : removeId n.id ((B ++ fi :: M') ++ n :: fe :: A)
          = B ++ fi :: M' ++ fe :: A := by
        rw [removeId_middle n (B ++ fi :: M') (fe :: A) hX hY]
      have hflt : M'.length < fuel := by
        simp at hf
        omega
      rw [hassoc]
      simp only [destroyBack, hps]
      rw [if_neg (fun hc => hfin hc.symm), hrm]
      rw [ih fuel hflt hfeM' hfiM' hnd'
        (fun m hm => hMB m (List.mem_append_left _ hm))
        (fun m hm => hMA m (List.mem_append_left _ hm))]
      simp [ids_append, ids]

theorem destroyForward_spec (B : List DNode) :
    ∀ (A : List DNode) (fi : DNode) (fuel : Nat), A.length < fuel →
      (∀ m ∈ fi :: A, m.id ∉ ids B) → (ids (fi :: A)).Nodup →
      destroyForward (some fi.id) fuel (B ++ fi :: A)
        = (B, ids (fi :: A)) := by
  intro A
  induction A with
  | nil =>
    intro fi fuel hf hB _
    match fuel, hf with
    | fuel + 1, _ =>
      have hns : nextSib fi.id (B ++ [fi]) = none :=
        nextSib_last fi B (hB fi (by simp))
      have hrm : removeId fi.id (B ++ [fi]) = B := by
        have := removeId_middle fi B [] (hB fi (by simp)) (by simp [ids])
        simpa using this
      simp only [destroyForward, hns, Option.map_none', hrm]
      cases fuel <;> simp [destroyForward, ids]
  | cons n A' ih =>
    intro fi fuel hf hB hnd
    match fuel, hf with
    | fuel + 1, hf =>
      have hns : nextSib fi.id (B ++ fi :: n :: A') = some n :=
        nextSib_mid fi n B A' (hB fi (by simp))
      have hfiA : fi.id ∉ ids (n :: A') := by
        rw [ids_cons] at hnd
        exact hnd.not_mem
      have hrm : removeId fi.id (B ++ fi :: n :: A') = B ++ n :: A' :=
        removeId_middle fi B (n :: A') (hB fi (by simp)) hfiA
      simp only [destroyForward, hns, Option.map_some', hrm]
      rw [ih n fuel (by simpa using hf)
        (fun m hm => hB m (List.mem_cons_of_mem _ hm))
        (by rw [ids_cons] at hnd; exact hnd.of_cons)]
      simp [ids]

theorem nodup_split (B A : List Nat) (x : Nat) (h : (B ++ x :: A).Nodup) :
    x ∉ B ∧ x ∉ A ∧ A.Nodup ∧ B.Nodup ∧ (∀ m ∈ x :: A, m ∉ B) := by
  rw [List.nodup_append] at h
  obtain ⟨hB, hxA, hdisj⟩ := h
  rw [List.nodup_cons] at hxA
  refine ⟨fun hx => hdisj hx (by simp), hxA.1, hxA.2, hB, ?_⟩
  intro m hm hmB
  exact hdisj hmB hm

/-! ### Claim theorems -/

/-- Claim C6: `destroyRange` is a no-op when `firstIncluded` is absent
or equals `firstExcluded`; with `firstExcluded` absent it removes and
tears down nodes from the parent's last child backward until
`firstIncluded` (destroying it too), walking forward instead when
`firstIncluded` has no parent element; otherwise it walks backward from
`firstExcluded`'s previous sibling to `firstIncluded`, destroying each
node of `[firstIncluded, firstExcluded)`. -/
theorem C6_destroyRange_cases :
    (∀ (fe : Option Nat) (hp : Bool) (dom : List DNode),
        destroyRangeM none fe hp dom = (dom, [])) ∧
    (∀ (i : Nat) (hp : Bool) (dom : List DNode),
        destroyRangeM (some i) (some i) hp dom = (dom, [])) ∧
    (∀ (B A : List DNode) (fi : DNode), (ids (B ++ fi :: A)).Nodup →
        destroyRangeM (some fi.id) none true (B ++ fi :: A)
          = (B, (ids A).reverse ++ [fi.id])) ∧
    (∀ (B A : List DNode) (fi : DNode), (ids (B ++ fi :: A)).Nodup →
        destroyRangeM (some fi.id) none false (B ++ fi :: A)
          = (B, fi.id :: ids A)) ∧
    (∀ (B M A : List DNode) (fi fe : DNode) (hp : Bool),
        (ids (B ++ fi :: M ++ fe :: A)).Nodup →
        destroyRangeM (some fi.id) (some fe.id) hp (B ++ fi :: M ++ fe :: A)
          = (B ++ fe :: A, (ids M).reverse ++ [fi.id])) := by
  refine ⟨fun fe hp dom => rfl, fun i hp dom => by simp [destroyRangeM],
    ?_, ?_, ?_⟩
  · intro B A fi hnd
    rw [ids_append, ids_cons] at hnd
    obtain ⟨hfiB, hfiA, hAnd, hBnd, hdisj⟩ := nodup_split (ids B) (ids A) fi.id hnd
    have h1 := destroyToEnd_spec fi B A ((B ++ fi :: A).length + 1)
      (by simp; omega) hfiA
    have hrm : removeId fi.id (B ++ [fi]) = B := by
      have := removeId_middle fi B [] hfiB (by simp [ids])
      simpa using this
    rw [show destroyRangeM (some fi.id) none true (B ++ fi :: A)
        = (removeId fi.id (destroyToEnd fi.id ((B ++ fi :: A).length + 1)
            (B ++ fi :: A)).1,
           (destroyToEnd fi.id ((B ++ fi :: A).length + 1)
            (B ++ fi :: A)).2 ++ [fi.id]) from rfl, h1, hrm]
  · intro B A fi hnd
    rw [ids_append, ids_cons] at hnd
    obtain ⟨hfiB, hfiA, hAnd, hBnd, hdisj⟩ := nodup_split (ids B) (ids A) fi.id hnd
    have hmem : ∀ m ∈ fi :: A, m.id ∉ ids B := by
      intro m hm
      rcases List.mem_cons.mp hm with hm | hm
      · exact hm ▸ hdisj fi.id (by simp)
      · exact hdisj m.id
          (List.mem_cons_of_mem _ (List.mem_map_of_mem (·.id) hm))
    have h1 := destroyForward_spec B A fi ((B ++ fi :: A).length + 1)
      (by simp; omega) hmem
      (by rw [ids_cons]; exact List.nodup_cons.mpr ⟨hfiA, hAnd⟩)
    rw [show destroyRangeM (some fi.id) none false (B ++ fi :: A)
        = destroyForward (some fi.id) ((B ++ fi :: A).length + 1)
            (B ++ fi :: A) from rfl, h1, ids_cons]
  · intro B M A fi fe hp hnd
    have hnd' : (ids B ++ fi.id :: (ids M ++ fe.id :: ids A)).Nodup := by
      simpa [ids_append, ids_cons] using hnd
    obtain ⟨hfiB, hfiMA, hMAnd, hBnd, hdisjB⟩ :=
      nodup_split (ids B) (ids M ++ fe.id :: ids A) fi.id hnd'
    obtain ⟨hfeM, hfeA, hAnd, hMnd, hdisjM⟩ :=
      nodup_split (ids M) (ids A) fe.id hMAnd
    have hfife : fe.id ≠ fi.id := fun hc => hfiMA (by simp [hc.symm])
    have hfeB : fe.id ∉ ids B := hdisjB fe.id (by simp)
    have hfiM : fi.id ∉ ids M := fun hc =>
      hfiMA (List.mem_append_left _ hc)
    have hfiA2 : fi.id ∉ ids A := fun hc =>
      hfiMA (List.mem_append_right _ (List.mem_cons_of_mem _ hc))
    have hMB : ∀ m ∈ M, m.id ∉ ids B := by
      intro m hm
      exact hdisjB m.id (List.mem_cons_of_mem _
        (List.mem_append_left _ (List.mem_map_of_mem (·.id) hm)))
    have hMA : ∀ m ∈ M, m.id ∉ ids A := by
      intro m hm hc
      exact hdisjM m.id (List.mem_cons_of_mem _ hc)
        (List.mem_map_of_mem (·.id) hm)
    have h1 := destroyBack_spec fi fe B A hfeB hfife M
      ((B ++ fi :: M ++ fe :: A).length + 1) (by simp; omega) hfeM hfiM hMnd hMB hMA
    have hrm : removeId fi.id (B ++ fi :: fe :: A) = B ++ fe :: A := by
      refine removeId_middle fi B (fe :: A) hfiB ?_
      rw [ids_cons]
      simp only [List.mem_cons, not_or]
      exact ⟨fun hc => hfife hc.symm, hfiA2⟩
    have hne : ¬((some fe.id : Option Nat) = some fi.id) := by
      simpa using hfife
    show (if some fe.id = some fi.id
        then (B ++ fi :: M ++ fe :: A, ([] : List Nat))
        else
          (removeId fi.id (destroyBack fi.id fe.id
              ((B ++ fi :: M ++ fe :: A).length + 1)
              (B ++ fi :: M ++ fe :: A)).1,
           (destroyBack fi.id fe.id
              ((B ++ fi :: M ++ fe :: A).length + 1)
              (B ++ fi :: M ++ fe :: A)).2 ++ [fi.id]))
      = (B ++ fe :: A, (ids M).reverse ++ [fi.id])
    rw [if_neg hne, h1, hrm]

/-- Witness for C6: concrete ranges in a five-node parent. -/
theorem C6_destroyRange_cases_witness :
    destroyRangeM (some 1) none true
        [⟨0, .elem⟩, ⟨1, .elem⟩, ⟨2, .elem⟩] = ([⟨0, .elem⟩], [2, 1]) ∧
    destroyRangeM (some 1) none false
        [⟨0, .elem⟩, ⟨1, .elem⟩, ⟨2, .elem⟩] = ([⟨0, .elem⟩], [1, 2]) ∧
    destroyRangeM (some 1) (some 3) true
        [⟨0, .elem⟩, ⟨1, .elem⟩, ⟨2, .elem⟩, ⟨3, .elem⟩, ⟨4, .elem⟩]
      = ([⟨0, .elem⟩, ⟨3, .elem⟩, ⟨4, .elem⟩], [2, 1]) := by
  refine ⟨?_, ?_, ?_⟩
  · have h := C6_destroyRange_cases.2.2.1 [⟨0, .elem⟩] [⟨2, .elem⟩]
      ⟨1, .elem⟩ (by decide)
    simpa [ids] using h
  · have h := C6_destroyRange_cases.2.2.2.1 [⟨0, .elem⟩] [⟨2, .elem⟩]
      ⟨1, .elem⟩ (by decide)
    simpa [ids] using h
  · have h := C6_destroyRange_cases.2.2.2.2 [⟨0, .elem⟩] [⟨2, .elem⟩]
      [⟨4, .elem⟩] ⟨1, .elem⟩ ⟨3, .elem⟩ true (by decide)
    simpa [ids] using h

/-- Claim C3: the renderer's dispatch applies exactly one shape case,
tested in the order empty check → observable check → custom-renderable
check → array check → literal/text fallback; in particular a value that
is both observable and an array is treated as an Observable Node, never
as a Sequence. -/
theorem C3_dispatch_order :
    ∀ v : RVal,
      (dispatch v = .empty ↔ emptyShaped v) ∧
      (dispatch v = .observable ↔ (¬emptyShaped v ∧ observableShaped v)) ∧
      (dispatch v = .custom ↔
        (¬emptyShaped v ∧ ¬observableShaped v ∧ v.hasRenderFn)) ∧
      (dispatch v = .sequence ↔
        (¬emptyShaped v ∧ ¬observableShaped v ∧ ¬v.hasRenderFn ∧ v.isArray)) ∧
      (dispatch v = .literal ↔
        (¬emptyShaped v ∧ ¬observableShaped v ∧ ¬v.hasRenderFn ∧ ¬v.isArray)) ∧
      (observableShaped v → v.isArray → ¬emptyShaped v →
        dispatch v = .observable ∧ dispatch v ≠ .sequence) := by
  intro v
  obtain ⟨n, f, o, s, r, a⟩ := v
  revert n f o s r a
  decide

/-- Witness for C3: a value that is simultaneously observable-shaped
and an array dispatches as an Observable Node. -/
theorem C3_dispatch_order_witness :
    dispatch ⟨false, false, true, false, false, true⟩ = .observable ∧
    dispatch ⟨false, false, true, false, false, true⟩ ≠ .sequence :=
  (C3_dispatch_order ⟨false, false, true, false, false, true⟩).2.2.2.2.2
    (by decide) (by decide) (by decide)

/-- Claim C10: assigning `BuiltinSubject#value` (and hence `next`) with
a value equal to the stored one notifies nobody and changes nothing;
otherwise it stores the value and notifies every registered observer
exactly once, in registration order, with that value. -/
theorem C10_subject_set_value :
    ∀ (T : Type) (_ : DecidableEq T) (s : BSubject T) (x : T),
      (s.v = x → s.setValue x = (s, [])) ∧
      (s.v ≠ x → s.setValue x
        = (⟨x, s.observers⟩, s.observers.map fun o => (o, x))) ∧
      (s.nextVal x = s.setValue x) ∧
      (s.v ≠ x → s.observers.Nodup →
        ∀ o ∈ s.observers,
          ((s.setValue x).2.countP (fun p => p.1 == o)) = 1) := by
  intro T inst s x
  refine ⟨fun h => by simp [BSubject.setValue, h], fun h => ?_, rfl, ?_⟩
  · simp [BSubject.setValue, h]
  · intro h hnd o ho
    simp only [BSubject.setValue, if_neg h]
    rw [List.countP_map]
    exact List.count_eq_one_of_mem hnd ho

/-- Witness for C10: a subject holding `1` with observers `[5, 7]`,
assigned `2`. -/
theorem C10_subject_set_value_witness :
    (BSubject.setValue ⟨1, [5, 7]⟩ 2 = (⟨2, [5, 7]⟩, [(5, 2), (7, 2)])) ∧
    ((BSubject.setValue ⟨1, [5, 7]⟩ 2).2.countP (fun p => p.1 == 5) = 1) :=
  ⟨(C10_subject_set_value Nat inferInstance ⟨1, [5, 7]⟩ 2).2.1 (by decide),
   (C10_subject_set_value Nat inferInstance ⟨1, [5, 7]⟩ 2).2.2.2 (by decide)
     (by decide) 5 (by decide)⟩

/-- Claim C7: an index assignment with `index < 0` or `index > length`
fails and leaves the backing storage (and everything else) unchanged;
assignment at exactly `length` is a valid append; on success the
backing storage is updated and every registered observer is notified of
the set, in order. -/
theorem C7_set_index_bounds :
    ∀ (α : Type) (s : SingleArr α) (p : Int) (v : α),
      ((p < 0 ∨ p > (s.data.length : Int)) →
        setPropertySA s p v = (s, [], false)) ∧
      (setPropertySA s (s.data.length : Int) v
        = (⟨s.data ++ [v], s.changeObs, s.obs⟩,
           s.changeObs.map (fun o => (o, s.data.length, v))
             ++ s.obs.map (fun o => (o, s.data.length, v)), true)) ∧
      (0 ≤ p → p ≤ (s.data.length : Int) →
        setPropertySA s p v
          = (⟨listWrite s.data p.toNat v, s.changeObs, s.obs⟩,
             s.changeObs.map (fun o => (o, p.toNat, v))
               ++ s.obs.map (fun o => (o, p.toNat, v)), true)) := by
  intro α s p v
  refine ⟨fun h => by simp [setPropertySA, h], ?_, fun h0 h1 => ?_⟩
  · have hc : ¬((s.data.length : Int) < 0 ∨
        (s.data.length : Int) > (s.data.length : Int)) := by omega
    simp [setPropertySA, hc, listWrite]
  · have hc : ¬(p < 0 ∨ p > (s.data.length : Int)) := by omega
    simp [setPropertySA, hc]

/-- Witness for C7: on `[1, 2]` with observers `[8]`/`[9]`: index 5
fails unchanged, index 2 appends, index 0 overwrites with
notifications. -/
theorem C7_set_index_bounds_witness :
    (setPropertySA (⟨[1, 2], [8], [9]⟩ : SingleArr Nat) 5 7
      = (⟨[1, 2], [8], [9]⟩, [], false)) ∧
    (setPropertySA (⟨[1, 2], [8], [9]⟩ : SingleArr Nat) 2 7
      = (⟨[1, 2, 7], [8], [9]⟩, [(8, 2, 7), (9, 2, 7)], true)) ∧
    (setPropertySA (⟨[1, 2], [8], [9]⟩ : SingleArr Nat) 0 7
      = (⟨[7, 2], [8], [9]⟩, [(8, 0, 7), (9, 0, 7)], true)) := by
  refine ⟨(C7_set_index_bounds Nat ⟨[1, 2], [8], [9]⟩ 5 7).1 (by decide), ?_, ?_⟩
  · have h := (C7_set_index_bounds Nat ⟨[1, 2], [8], [9]⟩ 2 7).2.1
    simpa using h
  · have h := (C7_set_index_bounds Nat ⟨[1, 2], [8], [9]⟩ 0 7).2.2
      (by decide) (by decide)
    simpa using h

/-- Counterexample to claim C9: a node with one subscription and an
`ondestroy` hook has the hook invoked by the first `destroy` *and
again* by a second `destroy` of the already-torn-down node — the hook
is not protected against double teardown. -/
theorem C9_hook_refires_counterexample :
    (destroyEl ⟨true, some [1], true⟩ true).hookInvoked = true ∧
    (destroyEl (destroyEl ⟨true, some [1], true⟩ true).node true).hookInvoked
      = true ∧
    (destroyEl (destroyEl ⟨true, some [1], true⟩ true).node true).eventFired
      = true := by
  decide

/-- Claim C9 as amended: destroying an already-torn-down node does not
throw and does not unsubscribe its subscriptions a second time (the
first destroy emptied the list), but the `destroy` event and the
`ondestroy` hook fire again on every repeated destroy of a node whose
`subscriptions` property is non-null. -/
theorem C9_double_destroy_amended :
    ∀ (n : ElNode) (r1 r2 : Bool),
      ((destroyEl (destroyEl n r1).node r2).unsubscribed = []) ∧
      ((destroyEl (destroyEl n r1).node r2).hookInvoked
        = (n.subscriptions.isSome && n.ondestroy)) ∧
      ((destroyEl (destroyEl n r1).node r2).eventFired
        = n.subscriptions.isSome) := by
  intro n r1 r2
  obtain ⟨att, subs, hook⟩ := n
  cases subs <;> cases r1 <;> cases r2 <;> simp [destroyEl]

/-- Claim C5: in a two-way synced pair (array 0 and array 1 with
mutual mirror observers sharing lock 0), a single index assignment
originating on either side performs exactly one mirrored assignment on
the other side and stops: the reflected-back propagation finds the lock
held and is dropped, the forward transform is invoked exactly once, the
inverse transform not at all, and the lock ends up released. -/
theorem C5_mirror_reentrancy_lock (f g : JSVal → Nat → JSVal)
    (aD bD : List JSVal) (i : Int) (v : JSVal) (cf cg : Nat) (fuel : Nat)
    (h0 : 0 ≤ i) (hA : i ≤ (aD.length : Int)) (hB : i ≤ (bD.length : Int))
    (hfuel : 3 ≤ fuel) :
    setProp fuel ⟨[⟨aD, [⟨1, f, 0, 0⟩]⟩, ⟨bD, [⟨0, g, 1, 0⟩]⟩],
        [false], [cf, cg]⟩ 0 i v
      = ⟨[⟨listWrite aD i.toNat v, [⟨1, f, 0, 0⟩]⟩,
          ⟨listWrite bD i.toNat (f v i.toNat), [⟨0, g, 1, 0⟩]⟩],
         [false], [cf + 1, cg]⟩ ∧
    setProp fuel ⟨[⟨aD, [⟨1, f, 0, 0⟩]⟩, ⟨bD, [⟨0, g, 1, 0⟩]⟩],
        [false], [cf, cg]⟩ 1 i v
      = ⟨[⟨listWrite aD i.toNat (g v i.toNat), [⟨1, f, 0, 0⟩]⟩,
          ⟨listWrite bD i.toNat v, [⟨0, g, 1, 0⟩]⟩],
         [false], [cf, cg + 1]⟩ := by
  obtain ⟨k, rfl⟩ : ∃ k, fuel = k + 3 := ⟨fuel - 3, by omega⟩
  have hcA : ¬(i < 0 ∨ i > (aD.length : Int)) := by omega
  have hcB : ¬(i < 0 ∨ i > (bD.length : Int)) := by omega
  constructor <;>
    simp [setProp, World.arrData, World.arrObs, World.setData, World.lockAt,
      World.setLock, World.bumpCalls, hcA, hcB]

/-- Witness for C5: a concrete two-way pair with `f = x * 2` and
`g = Number`, assigning index 0. -/
theorem C5_mirror_reentrancy_lock_witness :
    setProp 3 ⟨[⟨[.vint 1], [⟨1, jsDouble, 0, 0⟩]⟩,
        ⟨[.vint 2], [⟨0, jsNumber, 1, 0⟩]⟩], [false], [4, 5]⟩ 0 0 (.vint 7)
      = ⟨[⟨[.vint 7], [⟨1, jsDouble, 0, 0⟩]⟩,
          ⟨[.vint 14], [⟨0, jsNumber, 1, 0⟩]⟩], [false], [5, 5]⟩ := by
  have h := (C5_mirror_reentrancy_lock jsDouble jsNumber [.vint 1] [.vint 2]
    0 (.vint 7) 4 5 3 (by decide) (by decide) (by decide) (by decide)).1
  simpa [listWrite, jsDouble] using h

/-- Failing input for claim C1: the handler tracks "produced any node"
through `prev[0]`, which a Sequence only writes through its index-0
member; an emission `[null, "a"]` therefore materializes a node while
`hadValue` becomes false, and the next emission `"b"` neither destroys
the leftover `"a"` nor renders in front of it — the bracketed range
ends as `"a", "b"` instead of exactly the nodes of `"b"`. -/
theorem C1_emission_leak :
    (renderChild none (renderChild none ⟨0, [], true, none⟩
        (.seq [.empty, .text "a"])) (.text "b")).dom.map (·.label)
      = [.text "a", .text "b"] ∧
    (renderChild none ⟨0, [], true, none⟩
        (.seq [.empty, .text "a"])).hadValue = false ∧
    producedL (.text "b") = [.text "b"] ∧
    (renderChild none (renderChild none ⟨0, [], true, none⟩
        (.seq [.empty, .text "a"])) (.text "b")).dom.map (·.label)
      ≠ producedL (.text "b") := by
  refine ⟨rfl, rfl, rfl, by decide⟩

/-- Failing input for claim C2: the Sequence
`["c", [[], "a"]]` renders as `"a", "c"` although its flattening
`["c", "a"]` renders as `"c", "a"` — member `[[], "a"]` materializes a
node without writing its `childPrev`, so the loop keeps the stale
`next` and inserts `"c"` after `"a"`. -/
theorem C2_nested_order_bug :
    leaves (.seq [.text "c", .seq [.seq [], .text "a"]])
      = [.text "c", .text "a"] ∧
    ((rPure (.seq [.text "c", .seq [.seq [], .text "a"]])
        none none (0, [])).1.2).map (·.label)
      = [.text "a", .text "c"] ∧
    ((rPure (.seq (leaves (.seq [.text "c", .seq [.seq [], .text "a"]])))
        none none (0, [])).1.2).map (·.label)
      = [.text "c", .text "a"] ∧
    ((rPure (.seq [.text "c", .seq [.seq [], .text "a"]])
        none none (0, [])).1.2).map (·.label)
      ≠ ((rPure (.seq (leaves (.seq [.text "c", .seq [.seq [], .text "a"]])))
        none none (0, [])).1.2).map (·.label) := by
  refine ⟨rfl, rfl, rfl, by decide⟩

/-- Claim C4: with `A = [1, 3]` and `B = A.sync(x => x * 2)`, after
`A.push(5)` `B` equals `[2, 6, 10]`; with `C = A.sync(String, Number)`,
assigning `C[1] = '9'` yields `A[1] === 9` and `B[1] === 18`, the local
mutation propagating back through `Number` and on to the sibling `B`,
while the reentrancy lock leaves every lock released afterwards. -/
theorem C4_sync_mirror_scenario :
    syncW2.arrData 1 = [.vint 2, .vint 6, .vint 10] ∧
    syncW4.arrData 0 = [.vint 1, .vint 9, .vint 5] ∧
    syncW4.arrData 1 = [.vint 2, .vint 18, .vint 10] ∧
    syncW4.arrData 2 = [.vstr 1, .vstr 9, .vstr 5] ∧
    syncW4.locks = [false, false] := by
  refine ⟨rfl, rfl, rfl, rfl, rfl⟩

/-- Failing input for claim C8: `observableArray(e1, e2)` rendered,
then `swap(0, 1)`.  The proxy returns the prototype `swap`, which
performs two index assignments; the rendering contract's `set` handler
destroys and re-renders each span, so both original nodes are torn
down, the debug duplicate-item check fires once, and the document ends
with a single node `e1` instead of the relocated pair `e2, e1`. -/
theorem C8_swap_destroys_and_rerenders :
    (swapOp (swapScenario0 ⟨10, .elem⟩ ⟨20, .elem⟩) 0 1).data
      = [⟨20, .elem⟩, ⟨10, .elem⟩] ∧
    (swapOp (swapScenario0 ⟨10, .elem⟩ ⟨20, .elem⟩) 0 1).destroyedLog
      = [10, 20] ∧
    (swapOp (swapScenario0 ⟨10, .elem⟩ ⟨20, .elem⟩) 0 1).dom
      = [⟨10, .elem⟩] ∧
    (swapOp (swapScenario0 ⟨10, .elem⟩ ⟨20, .elem⟩) 0 1).dupErrors = 1 := by
  decide

end Ricochet
